import Mathlib

/-
  Verification of the text-block parser of `src/home.py`.

  Modelling conventions for the shallow embedding:
  * Python strings are Lean `String`s; character-level operations work on
    `List Char`.  The regular expressions `MONEY_RE`, `RE_HEAD`, `RE_TAIL`
    and `RE_VALS` are straight-line patterns whose adjacent pieces have
    disjoint first-character classes, so Python's leftmost greedy matching
    is reproduced exactly by deterministic maximal-munch parsers.
  * Whitespace and case conversion are modelled over ASCII (the character
    classes the documents use).
  * Python floats are modelled as exact rationals `ℚ`; the decimal strings
    accepted by `float(...)` (sign, digits, one dot, optional exponent) are
    parsed exactly.  IEEE specials (`inf`, `nan`) and digit underscores are
    outside the rational model and are mapped to `none`.
  * `None` results of the Python code are `Option.none`.
  * The pandas DataFrame of `parse_text_blocks` is modelled as the list of
    records in flush order; the date re-formatting done by the surrounding
    UI glue is out of scope.
  * The numpy rounding used by `round(series, 0)` rounds halves to even;
    `roundHalfToEven` reproduces it on rationals.
-/

set_option maxHeartbeats 1000000

/-- ASCII whitespace, the characters matched by the patterns' `\s`. -/
def isWS (c : Char) : Bool :=
  c.toNat == 32 || c.toNat == 9 || c.toNat == 10 || c.toNat == 13 ||
    c.toNat == 11 || c.toNat == 12

/-- ASCII digit, the characters matched by `\d`. -/
def isDig (c : Char) : Bool :=
  48 ≤ c.toNat && c.toNat ≤ 57

/-- Characters of the class `[\d\.,]` used by the money patterns. -/
def isMoneyChar (c : Char) : Bool :=
  isDig c || c == '.' || c == ','

/-- Replace every maximal run of whitespace by a single space
(`re.sub(r"\s+", " ", s)`); the boolean flag records whether the previous
character was whitespace. -/
def collapseWS : Bool → List Char → List Char
  | _, [] => []
  | inRun, c :: cs =>
    if isWS c then
      if inRun then collapseWS true cs else ' ' :: collapseWS true cs
    else c :: collapseWS false cs

/-- Python `str.strip()` on a character list. -/
def stripChars (l : List Char) : List Char :=
  ((l.dropWhile isWS).reverse.dropWhile isWS).reverse

/-- The helper `clean_spaces` of home.py: collapse whitespace runs to one
space and strip the ends. -/
def clean_spaces (s : String) : String :=
  String.mk (stripChars (collapseWS false s.data))

/-- ASCII upper-casing of one character, as `str.upper()` does on the
category-marker letters. -/
def upperChar (c : Char) : Char :=
  if 97 ≤ c.toNat ∧ c.toNat ≤ 122 then Char.ofNat (c.toNat - 32) else c

/-- The helper `is_tipo_pf` of home.py: the stripped upper-cased line must
equal one of the three category labels. -/
def is_tipo_pf (line : String) : Option String :=
  let u := String.mk ((stripChars line.data).map upperChar)
  if u = "CONSULTA" ∨ u = "EXAME" ∨ u = "OUTROS" then some u else none

/-- Numeric value of a digit string, as Python `int(...)` computes it. -/
def natOfDigits (l : List Char) : Nat :=
  l.foldl (fun n c => n * 10 + (c.toNat - 48)) 0

/-- Ten to a natural power, as a rational. -/
def pow10 (n : Nat) : ℚ :=
  ((10 ^ n : ℕ) : ℚ)

/-- Expect one given character at the head of the input. -/
def expectChar (c : Char) : List Char → Option (List Char)
  | [] => none
  | x :: xs => if x == c then some xs else none

/-- Expect one or more whitespace characters (`\s+`) and drop them. -/
def expectWS (l : List Char) : Option (List Char) :=
  if (l.takeWhile isWS).isEmpty then none else some (l.dropWhile isWS)

/-- Take exactly `n` digits from the front (`\d{n}`). -/
def takeDigitsExact (n : Nat) (l : List Char) : Option (List Char × List Char) :=
  let pre := l.take n
  if pre.length == n && pre.all isDig then some (pre, l.drop n) else none

/-- Exponent suffix of a Python float literal: digits after an optional
sign, which must end the string. -/
def pyExpDigits (base : ℚ) (neg : Bool) (l : List Char) : Option ℚ :=
  let ds := l.takeWhile isDig
  if ds.isEmpty then none
  else if (l.dropWhile isDig).isEmpty then
    some (if neg then base / pow10 (natOfDigits ds) else base * pow10 (natOfDigits ds))
  else none

/-- Optional exponent part of a Python float literal (`e`/`E`, an optional
sign, digits). -/
def pyExp (base : ℚ) : List Char → Option ℚ
  | [] => some base
  | c :: rest =>
    if c == 'e' || c == 'E' then
      match rest with
      | [] => none
      | d :: ds =>
        if d == '+' then pyExpDigits base false ds
        else if d == '-' then pyExpDigits base true ds
        else pyExpDigits base false (d :: ds)
    else none

/-- Unsigned decimal core of a Python float literal: digits with at most
one dot (at least one digit overall), then an optional exponent. -/
def pyFloatCore (l : List Char) : Option ℚ :=
  let ip := l.takeWhile isDig
  let r1 := l.dropWhile isDig
  match expectChar '.' r1 with
  | some r2 =>
    let fp := r2.takeWhile isDig
    let r3 := r2.dropWhile isDig
    if ip.isEmpty && fp.isEmpty then none
    else pyExp ((natOfDigits ip : ℚ) + (natOfDigits fp : ℚ) / pow10 fp.length) r3
  | none =>
    if ip.isEmpty then none else pyExp (natOfDigits ip : ℚ) r1

/-- Python `float(str)` restricted to finite decimal literals: surrounding
whitespace is stripped, a sign is optional.  Parse failure — Python's
`ValueError` — is `none`; `inf`/`nan` and digit underscores are outside the
rational model and also yield `none`. -/
def pyFloat (l : List Char) : Option ℚ :=
  match stripChars l with
  | [] => none
  | c :: rest =>
    if c == '+' then pyFloatCore rest
    else if c == '-' then (pyFloatCore rest).map (fun q => -q)
    else pyFloatCore (c :: rest)

/-- Match of `MONEY_RE` = `R\$\s*([\d\.,]+)` at the current position,
returning the captured group. -/
def matchMoneyAt (l : List Char) : Option (List Char) := do
  let r1 ← expectChar 'R' l
  let r2 ← expectChar '$' r1
  let r3 := r2.dropWhile isWS
  let g := r3.takeWhile isMoneyChar
  if g.isEmpty then none else some g

/-- `MONEY_RE.search`: leftmost position at which `matchMoneyAt`
succeeds. -/
def searchMoney : List Char → Option (List Char)
  | [] => none
  | c :: cs =>
    match matchMoneyAt (c :: cs) with
    | some g => some g
    | none => searchMoney cs

/-- The `.replace(".", "").replace(",", ".")` separator conversion of
`parse_money`. -/
def convertSeps (l : List Char) : List Char :=
  (l.filter (fun c => !(c == '.'))).map (fun c => if c == ',' then '.' else c)

/-- The helper `parse_money` of home.py.  `None` and the empty string give
no value; otherwise a `R$`-prefixed group is searched for, and either the
group or the whole string goes through separator conversion and
`float(...)`. -/
def parse_money : Option String → Option ℚ
  | none => none
  | some s =>
    if s.data.isEmpty then none
    else
      match searchMoney s.data with
      | some g => pyFloat (convertSeps g)
      | none => pyFloat (convertSeps s.data)

/-- Rounding to the nearest integer with ties to even, as numpy's
`round(x, 0)` does (the rounding applied to the derived-value column). -/
def roundHalfToEven (q : ℚ) : ℤ :=
  let n := q.floor
  let r := q - (n : ℚ)
  if r < 1 / 2 then n
  else if 1 / 2 < r then n + 1
  else if n % 2 = 0 then n else n + 1

/-- The derived column `novo_valor = round(valor_pago * 0.30 -
coparticipacao, 0)` of home.py, on one row; a missing operand (NaN in
pandas) propagates to a missing result. -/
def novo_valor (vl cp : Option ℚ) : Option ℚ :=
  match vl, cp with
  | some v, some c => some ((roundHalfToEven (v * (3 / 10) - c) : ℤ) : ℚ)
  | _, _ => none

/-- The captured groups of `RE_HEAD`:
`^(?P<peg>\d{6,})\s+(?P<guia>\d+)\s+(?P<data>\d{2}/\d{2}/\d{4})\s+(?P<codigo>\d\.\d{2}\.\d{2}\.\d{2}-\d)`. -/
structure HeadMatch where
  peg : String
  guia : String
  data : String
  codigo : String
deriving DecidableEq, Repr

/-- The date part `\d{2}/\d{2}/\d{4}` of the heading pattern, returning
the matched characters and the rest. -/
def matchDate (l : List Char) : Option (List Char × List Char) :=
  match takeDigitsExact 2 l with
  | none => none
  | some (dd, r1) =>
    match expectChar '/' r1 with
    | none => none
    | some r2 =>
      match takeDigitsExact 2 r2 with
      | none => none
      | some (mm, r3) =>
        match expectChar '/' r3 with
        | none => none
        | some r4 =>
          match takeDigitsExact 4 r4 with
          | none => none
          | some (yy, r5) => some (dd ++ ['/'] ++ mm ++ ['/'] ++ yy, r5)

/-- The code part `\d\.\d{2}\.\d{2}\.\d{2}-\d` of the heading pattern,
returning the matched characters (input after them is allowed). -/
def matchCodigo (l : List Char) : Option (List Char) :=
  match takeDigitsExact 1 l with
  | none => none
  | some (c1, r1) =>
    match expectChar '.' r1 with
    | none => none
    | some r2 =>
      match takeDigitsExact 2 r2 with
      | none => none
      | some (c2, r3) =>
        match expectChar '.' r3 with
        | none => none
        | some r4 =>
          match takeDigitsExact 2 r4 with
          | none => none
          | some (c3, r5) =>
            match expectChar '.' r5 with
            | none => none
            | some r6 =>
              match takeDigitsExact 2 r6 with
              | none => none
              | some (c4, r7) =>
                match expectChar '-' r7 with
                | none => none
                | some r8 =>
                  match takeDigitsExact 1 r8 with
                  | none => none
                  | some (c5, _) =>
                    some (c1 ++ ['.'] ++ c2 ++ ['.'] ++ c3 ++ ['.'] ++ c4 ++ ['-'] ++ c5)

/-- `RE_HEAD.match`: the anchored heading pattern, decoded into its four
captured groups (trailing input after the code group is allowed). -/
def matchHead (l : List Char) : Option HeadMatch :=
  let peg := l.takeWhile isDig
  if peg.length < 6 then none else
  match expectWS (l.dropWhile isDig) with
  | none => none
  | some r1 =>
    let guia := r1.takeWhile isDig
    if guia.isEmpty then none else
    match expectWS (r1.dropWhile isDig) with
    | none => none
    | some r2 =>
      match matchDate r2 with
      | none => none
      | some (dt, r3) =>
        match expectWS r3 with
        | none => none
        | some r4 =>
          match matchCodigo r4 with
          | none => none
          | some cd =>
            some ⟨String.mk peg, String.mk guia, String.mk dt, String.mk cd⟩

/-- `RE_HEAD.match` as a test on a line. -/
def reHeadB (l : String) : Bool :=
  (matchHead l.data).isSome

/-- Match of `RE_TAIL` = `(?P<qtd>\d+)\s+R\$\s*[\d\.,]+\s+R\$\s*[\d\.,]+$`
starting at the current position; the `$` anchor forces the match to
consume the rest of the line. -/
def matchTailAt (l : List Char) : Bool :=
  let q := l.takeWhile isDig
  if q.isEmpty then false else
  match expectWS (l.dropWhile isDig) with
  | none => false
  | some r1 =>
    match expectChar 'R' r1 with
    | none => false
    | some r2 =>
      match expectChar '$' r2 with
      | none => false
      | some r3 =>
        let r4 := r3.dropWhile isWS
        let m1 := r4.takeWhile isMoneyChar
        if m1.isEmpty then false else
        match expectWS (r4.dropWhile isMoneyChar) with
        | none => false
        | some r5 =>
          match expectChar 'R' r5 with
          | none => false
          | some r6 =>
            match expectChar '$' r6 with
            | none => false
            | some r7 =>
              let r8 := r7.dropWhile isWS
              let m2 := r8.takeWhile isMoneyChar
              if m2.isEmpty then false
              else (r8.dropWhile isMoneyChar).isEmpty

/-- Match of `RE_VALS` =
`(?P<qtd>\d+)\s+R\$\s*(?P<vl_pago>[\d\.,]+)\s+R\$\s*(?P<copart>[\d\.,]+)$`
starting at the current position, with its three captured groups. -/
def matchValsAt (l : List Char) : Option (List Char × List Char × List Char) :=
  let q := l.takeWhile isDig
  if q.isEmpty then none else
  match expectWS (l.dropWhile isDig) with
  | none => none
  | some r1 =>
    match expectChar 'R' r1 with
    | none => none
    | some r2 =>
      match expectChar '$' r2 with
      | none => none
      | some r3 =>
        let r4 := r3.dropWhile isWS
        let m1 := r4.takeWhile isMoneyChar
        if m1.isEmpty then none else
        match expectWS (r4.dropWhile isMoneyChar) with
        | none => none
        | some r5 =>
          match expectChar 'R' r5 with
          | none => none
          | some r6 =>
            match expectChar '$' r6 with
            | none => none
            | some r7 =>
              let r8 := r7.dropWhile isWS
              let m2 := r8.takeWhile isMoneyChar
              if m2.isEmpty then none
              else if (r8.dropWhile isMoneyChar).isEmpty then some (q, m1, m2)
              else none

/-- `RE_TAIL.search`: some position matches through to the end of the
line. -/
def searchTail : List Char → Bool
  | [] => false
  | c :: cs => matchTailAt (c :: cs) || searchTail cs

/-- `RE_TAIL.search` as a test on a line (trailing-presence). -/
def reTailB (l : String) : Bool :=
  searchTail l.data

/-- `RE_VALS.search`: groups of the leftmost match. -/
def searchVals : List Char → Option (List Char × List Char × List Char)
  | [] => none
  | c :: cs =>
    match matchValsAt (c :: cs) with
    | some g => some g
    | none => searchVals cs

/-- One output row of `parse_text_blocks` (a DataFrame record). -/
structure Record where
  tipo_pf : Option String
  peg : String
  guia : String
  data : String
  codigo : String
  descricao : Option String
  prestador : Option String
  qtd : Option Nat
  valor_pago : Option ℚ
  coparticipacao : Option ℚ
deriving DecidableEq, Repr

/-- The mutable scanner state of `parse_text_blocks`: the current category,
the records emitted so far, and the in-progress block. -/
structure ParseState where
  current_tipo_pf : Option String
  records : List Record
  current_block_lines : List String
  current_head : Option HeadMatch
deriving DecidableEq, Repr

/-- The backward scan of `flush_block` (lines 74-78 of home.py): the first
`RE_TAIL` match over the reversed accumulated lines. -/
def tail_line_of (bs : List String) : Option String :=
  bs.reverse.find? reTailB

/-- The numeric extraction of `flush_block` (lines 91-96 of home.py):
re-match the trailing line against `RE_VALS` and decode quantity and the
two money groups. -/
def tail_vals : Option String → Option Nat × Option ℚ × Option ℚ
  | none => (none, none, none)
  | some t =>
    match searchVals t.data with
    | none => (none, none, none)
    | some (q, v, c) =>
      (some (natOfDigits q), parse_money (some (String.mk v)),
        parse_money (some (String.mk c)))

/-- The body filter of `flush_block` (lines 98-104 of home.py): drop every
line equal to the trailing line and every line matching `RE_HEAD`. -/
def body_lines_of (bs : List String) : List String :=
  bs.filter (fun l => !(tail_line_of bs == some l) && !(reHeadB l))

/-- The record built at lines 106-128 of home.py from the current
category, the stored heading match, the decoded trailing values and the
body lines: the last body line becomes the provider, the earlier body
lines space-joined become the description (both whitespace-collapsed),
and an empty body leaves both absent. -/
def mk_record (tipo : Option String) (h : HeadMatch)
    (v : Option Nat × Option ℚ × Option ℚ) (body : List String) : Record :=
  { tipo_pf := tipo,
    peg := h.peg, guia := h.guia, data := h.data, codigo := h.codigo,
    descricao :=
      if body.dropLast = [] then none
      else some (clean_spaces (String.intercalate (" ") body.dropLast)),
    prestador :=
      match body.getLast? with
      | none => none
      | some p => some (clean_spaces p),
    qtd := v.1, valor_pago := v.2.1, coparticipacao := v.2.2 }

/-- The closure `flush_block` of home.py as a function on the scanner
state. -/
def flush_block (st : ParseState) : ParseState :=
  match st.current_head with
  | none => { st with current_block_lines := [], current_head := none }
  | some h =>
    if st.current_block_lines = [] then
      { st with current_block_lines := [], current_head := none }
    else
      { current_tipo_pf := st.current_tipo_pf,
        records := st.records ++
          [mk_record st.current_tipo_pf h
            (tail_vals (tail_line_of st.current_block_lines))
            (body_lines_of st.current_block_lines)],
        current_block_lines := [],
        current_head := none }

/-- The body of the scanning loop of `parse_text_blocks` (lines 133-150 of
home.py) applied to one line. -/
def step_line (st : ParseState) (line : String) : ParseState :=
  match is_tipo_pf line with
  | some tp => { flush_block st with current_tipo_pf := some tp }
  | none =>
    match matchHead line.data with
    | some h =>
      { flush_block st with current_head := some h, current_block_lines := [line] }
    | none =>
      match st.current_head with
      | some _ =>
        let st2 := { st with current_block_lines := st.current_block_lines ++ [line] }
        if reTailB line then flush_block st2 else st2
      | none => st

/-- The initial scanner state. -/
def initState : ParseState :=
  ⟨none, [], [], none⟩

/-- Line preprocessing of `parse_text_blocks` (line 60 of home.py): keep
the lines whose strip is non-empty and collapse their whitespace.  The
input text is taken as its list of raw lines. -/
def preprocess (raw : List String) : List String :=
  (raw.filter (fun l => !(stripChars l.data).isEmpty)).map clean_spaces

/-- `parse_text_blocks` of home.py on the raw lines of the input text: run
the scanner over the preprocessed lines, flush the final block, and return
the records in flush order. -/
def parse_text_blocks (raw : List String) : List Record :=
  (flush_block ((preprocess raw).foldl step_line initState)).records

/-- The last category marker seen in a line sequence (the value of
`current_tipo_pf` after scanning it). -/
def lastMarker (ls : List String) : Option String :=
  ls.foldl (fun acc l => match is_tipo_pf l with | some tp => some tp | none => acc) none

/-- Body lines computed as the specification words them: remove the heading
line (the block's first line) and the single identified trailing line — the
last `RE_TAIL`-matching line, found scanning from the end — keeping the
other lines in order.  When the heading line is itself the identified
trailing line the two removals coincide. -/
def bodySpec : List String → List String
  | [] => []
  | h :: rest =>
    if reTailB h && rest.all (fun l => !(reTailB l)) then rest
    else (rest.reverse.eraseP reTailB).reverse

/-- Flush as the specification words it: identical to `flush_block` except
that the body is `bodySpec` (exactly one occurrence of the trailing line is
removed, at its position). -/
def flush_block_spec (st : ParseState) : ParseState :=
  match st.current_head with
  | none => { st with current_block_lines := [], current_head := none }
  | some h =>
    if st.current_block_lines = [] then
      { st with current_block_lines := [], current_head := none }
    else
      { current_tipo_pf := st.current_tipo_pf,
        records := st.records ++
          [mk_record st.current_tipo_pf h
            (tail_vals (tail_line_of st.current_block_lines))
            (bodySpec st.current_block_lines)],
        current_block_lines := [],
        current_head := none }

/-- The scanning loop with the specification's flush. -/
def step_line_spec (st : ParseState) (line : String) : ParseState :=
  match is_tipo_pf line with
  | some tp => { flush_block_spec st with current_tipo_pf := some tp }
  | none =>
    match matchHead line.data with
    | some h =>
      { flush_block_spec st with current_head := some h, current_block_lines := [line] }
    | none =>
      match st.current_head with
      | some _ =>
        let st2 := { st with current_block_lines := st.current_block_lines ++ [line] }
        if reTailB line then flush_block_spec st2 else st2
      | none => st

/-- The parser with the specification's flush. -/
def parse_text_blocks_spec (raw : List String) : List Record :=
  (flush_block_spec ((preprocess raw).foldl step_line_spec initState)).records

/-- Invariant of the scanner state between lines: with no stored heading
match the accumulator is empty; with one, the accumulator starts with a
heading-matching line followed by lines that match neither `RE_HEAD` (they
would have opened a new block) nor `RE_TAIL` (they would have flushed at
once). -/
def BlockInv (st : ParseState) : Prop :=
  (st.current_head = none → st.current_block_lines = []) ∧
  (∀ h : HeadMatch, st.current_head = some h →
    ∃ l₀ rest, st.current_block_lines = l₀ :: rest ∧ reHeadB l₀ = true ∧
      ∀ l ∈ rest, reHeadB l = false ∧ reTailB l = false)

theorem getLast?_cons_or (a : α) (t : List α) :
    (a :: t).getLast? = t.getLast?.or (some a) := by
  rcases List.eq_nil_or_concat t with h | ⟨ys, b, h⟩
  · subst h; rfl
  · subst h
    rw [List.concat_eq_append]
    rw [show a :: (ys ++ [b]) = (a :: ys) ++ [b] from rfl]
    rw [List.getLast?_concat, List.getLast?_concat]
    rfl

theorem find?_reverse_getLast? (p : α → Bool) (l : List α) :
    l.reverse.find? p = (l.filter p).getLast? := by
  induction l with
  | nil => rfl
  | cons a l ih =>
    rw [List.reverse_cons, List.find?_append, ih, List.filter_cons]
    cases h : p a with
    | true =>
      have h1 : List.find? p [a] = some a := by simp [List.find?, h]
      rw [h1, if_pos rfl, getLast?_cons_or]
    | false =>
      have h1 : List.find? p [a] = none := by simp [List.find?, h]
      rw [h1, Option.or_none, if_neg (by simp)]

/-- C3: within a flushed block, the trailing line used for value
extraction and body exclusion is the last `RE_TAIL`-matching accumulated
line — the backward scan of `flush_block` returns the last element of the
matching sublist, not the first. -/
theorem tail_line_of_eq_last_matching :
    ∀ bs : List String, tail_line_of bs = (bs.filter reTailB).getLast? := by
  intro bs
  exact find?_reverse_getLast? reTailB bs

unseal Rat.add Rat.mul Rat.sub Rat.inv in
/-- C2: with both amounts present the derived column is
`round(valor_pago * 0.30 - coparticipacao, 0)` with halves to even (the
pandas default); a missing amount on either side makes the derived value
missing (`none`, distinguishable by construction from `some 0`), and the
spec's two concrete instances come out 0 and 50, also when the amounts are
produced by `parse_money`. -/
theorem novo_valor_formula :
    (∀ v c : ℚ, novo_valor (some v) (some c)
      = some ((roundHalfToEven (v * (3 / 10) - c) : ℤ) : ℚ))
    ∧ (∀ c : Option ℚ, novo_valor none c = none)
    ∧ (∀ v : ℚ, novo_valor (some v) none = none)
    ∧ novo_valor (some 100) (some 30) = some 0
    ∧ novo_valor (some 200) (some 10) = some 50
    ∧ novo_valor (parse_money (some ("100,00"))) (parse_money (some ("30,00"))) = some 0
    ∧ novo_valor (parse_money (some ("200,00"))) (parse_money (some ("10,00"))) = some 50 := by
  refine ⟨fun v c => rfl, fun c => by cases c <;> rfl, fun v => rfl, ?_, ?_, ?_, ?_⟩
  all_goals decide

unseal Rat.add Rat.mul Rat.sub Rat.inv in
/-- C8: the money normalizer maps the prefixed string `R$ 1.234,56` and
the unprefixed string `1.234,56` to 1234.56, and the empty string and
`None` to no value. -/
theorem parse_money_roundtrip :
    parse_money (some ("R$ 1.234,56")) = some ((123456 : ℚ) / 100)
    ∧ parse_money (some ("1.234,56")) = some ((123456 : ℚ) / 100)
    ∧ parse_money (some ("")) = none
    ∧ parse_money none = none := by
  refine ⟨?_, ?_, rfl, rfl⟩
  all_goals decide

/-- C9: the money normalizer is a total function into `Option ℚ` — on
every input (including `None`) it yields either a numeric value or no
value, never an exception; both failure stages (no parsable number at all,
and a `R$`-prefixed group whose digits do not form a float) yield `none`. -/
theorem parse_money_total :
    (∀ s : Option String, parse_money s = none ∨ ∃ q : ℚ, parse_money s = some q)
    ∧ parse_money (some ("abc")) = none
    ∧ parse_money (some ("R$ ,")) = none := by
  refine ⟨fun s => ?_, by decide, by decide⟩
  cases h : parse_money s with
  | none => exact Or.inl rfl
  | some q => exact Or.inr ⟨q, rfl⟩

theorem matchTailAt_eq_isSome (l : List Char) :
    matchTailAt l = (matchValsAt l).isSome := by
  simp only [matchTailAt, matchValsAt]
  repeat' first
    | rfl
    | split
  all_goals simp_all

theorem searchTail_eq_isSome (l : List Char) :
    searchTail l = (searchVals l).isSome := by
  induction l with
  | nil => rfl
  | cons c cs ih =>
    show (matchTailAt (c :: cs) || searchTail cs) = _
    rw [matchTailAt_eq_isSome, ih]
    cases h : matchValsAt (c :: cs) <;> simp [searchVals, h]

theorem isDig_bounds {c : Char} (h : isDig c = true) :
    48 ≤ c.toNat ∧ c.toNat ≤ 57 := by
  simpa [isDig, Bool.and_eq_true, decide_eq_true_eq] using h

theorem isDig_not_isWS {c : Char} (h : isDig c = true) : isWS c = false := by
  obtain ⟨h1, h2⟩ := isDig_bounds h
  simp only [isWS, Bool.or_eq_false_iff, beq_eq_false_iff_ne, ne_eq]
  omega

theorem isDig_upperChar {c : Char} (h : isDig c = true) : upperChar c = c := by
  obtain ⟨h1, h2⟩ := isDig_bounds h
  unfold upperChar
  rw [if_neg (by omega)]

theorem matchHead_first_digit {l : List Char} {hm : HeadMatch}
    (h : matchHead l = some hm) : ∃ c cs, l = c :: cs ∧ isDig c = true := by
  cases l with
  | nil => simp [matchHead] at h
  | cons c cs =>
    cases hd : isDig c with
    | true => exact ⟨c, cs, rfl, hd⟩
    | false => simp [matchHead, List.takeWhile_cons, hd] at h

theorem dropWhile_append_last (p : α → Bool) (xs : List α) (a : α)
    (h : p a = false) : ∃ zs, (xs ++ [a]).dropWhile p = zs ++ [a] := by
  induction xs with
  | nil => exact ⟨[], by simp [List.dropWhile_cons, h]⟩
  | cons x xs ih =>
    cases hx : p x with
    | true =>
      obtain ⟨zs, hz⟩ := ih
      exact ⟨zs, by simp [List.cons_append, List.dropWhile_cons, hx, hz]⟩
    | false => exact ⟨x :: xs, by simp [List.cons_append, List.dropWhile_cons, hx]⟩

theorem stripChars_cons_not_ws {c : Char} (cs : List Char) (h : isWS c = false) :
    ∃ t, stripChars (c :: cs) = c :: t := by
  unfold stripChars
  have h1 : List.dropWhile isWS (c :: cs) = c :: cs := by
    simp [List.dropWhile_cons, h]
  rw [h1, List.reverse_cons]
  obtain ⟨zs, hz⟩ := dropWhile_append_last isWS cs.reverse c h
  rw [hz, List.reverse_append]
  exact ⟨zs.reverse, by simp⟩

theorem mk_ne_of_digit_head {c : Char} {x : List Char} {m : String}
    (hd : isDig c = true) (d : Char) (t : List Char)
    (hdt : m.data = d :: t) (hdd : isDig d = false) :
    ¬(String.mk (c :: x) = m) := by
  intro he
  have h2 : c :: x = d :: t := by rw [← hdt]; exact congrArg String.data he
  have h3 : c = d := by
    have h4 := congrArg List.head? h2
    simpa using h4
  rw [← h3, hd] at hdd
  exact Bool.noConfusion hdd

theorem head_not_tipo {l : String} (h : reHeadB l = true) : is_tipo_pf l = none := by
  obtain ⟨hm, hmeq⟩ := Option.isSome_iff_exists.mp h
  obtain ⟨c, cs, hl, hd⟩ := matchHead_first_digit hmeq
  obtain ⟨t, ht⟩ := stripChars_cons_not_ws cs (isDig_not_isWS hd)
  unfold is_tipo_pf
  rw [hl, ht, List.map_cons, isDig_upperChar hd]
  rw [if_neg]
  rintro (h1 | h1 | h1)
  · exact mk_ne_of_digit_head hd 'C' ("ONSULTA".data) rfl (by decide) h1
  · exact mk_ne_of_digit_head hd 'E' ("XAME".data) rfl (by decide) h1
  · exact mk_ne_of_digit_head hd 'O' ("UTROS".data) rfl (by decide) h1

theorem tipo_of_head_none {l : String} (h : is_tipo_pf l = some tp) :
    reHeadB l = false := by
  cases hb : reHeadB l with
  | false => rfl
  | true => rw [head_not_tipo hb] at h; exact Option.noConfusion h

theorem flush_tipo (st : ParseState) :
    (flush_block st).current_tipo_pf = st.current_tipo_pf := by
  cases hh : st.current_head with
  | none => simp [flush_block, hh]
  | some h => by_cases hb : st.current_block_lines = [] <;> simp [flush_block, hh, hb]

theorem flush_head (st : ParseState) : (flush_block st).current_head = none := by
  cases hh : st.current_head with
  | none => simp [flush_block, hh]
  | some h => by_cases hb : st.current_block_lines = [] <;> simp [flush_block, hh, hb]

theorem flush_block_empty (st : ParseState) :
    (flush_block st).current_block_lines = [] := by
  cases hh : st.current_head with
  | none => simp [flush_block, hh]
  | some h => by_cases hb : st.current_block_lines = [] <;> simp [flush_block, hh, hb]

theorem flush_records_of_none (st : ParseState) (hh : st.current_head = none) :
    (flush_block st).records = st.records := by
  simp [flush_block, hh]

theorem flush_records_of_some (st : ParseState) (h : HeadMatch)
    (hh : st.current_head = some h) (hb : st.current_block_lines ≠ []) :
    (flush_block st).records = st.records ++
      [mk_record st.current_tipo_pf h
        (tail_vals (tail_line_of st.current_block_lines))
        (body_lines_of st.current_block_lines)] := by
  simp [flush_block, hh, hb]

theorem flush_records_generic (st : ParseState) :
    ∃ new, (flush_block st).records = st.records ++ new
      ∧ ∀ r ∈ new, r.tipo_pf = st.current_tipo_pf := by
  cases hh : st.current_head with
  | none => exact ⟨[], by simp [flush_records_of_none st hh], by simp⟩
  | some h =>
    by_cases hb : st.current_block_lines = []
    · exact ⟨[], by simp [flush_block, hh, hb], by simp⟩
    · refine ⟨_, flush_records_of_some st h hh hb, ?_⟩
      intro r hr
      rw [List.mem_singleton] at hr
      subst hr
      rfl

theorem step_tipo_marker (st : ParseState) (l : String) (tp : String)
    (h : is_tipo_pf l = some tp) : (step_line st l).current_tipo_pf = some tp := by
  simp [step_line, h]

theorem step_tipo_nonmarker (st : ParseState) (l : String)
    (h : is_tipo_pf l = none) :
    (step_line st l).current_tipo_pf = st.current_tipo_pf := by
  simp only [step_line, h]
  cases hm : matchHead l.data with
  | some hd => simp [flush_tipo]
  | none =>
    cases hh : st.current_head with
    | some x => cases ht : reTailB l <;> simp [ht, flush_tipo]
    | none => rfl

theorem run_tipo (ls : List String) : ∀ st : ParseState,
    (ls.foldl step_line st).current_tipo_pf
      = ls.foldl
          (fun acc l => match is_tipo_pf l with | some tp => some tp | none => acc)
          st.current_tipo_pf := by
  induction ls with
  | nil => intro st; rfl
  | cons l ls ih =>
    intro st
    rw [List.foldl_cons, List.foldl_cons, ih]
    congr 1
    cases h : is_tipo_pf l with
    | some tp => rw [step_tipo_marker st l tp h]
    | none => rw [step_tipo_nonmarker st l h]

theorem lastMarker_aux_none : ∀ (ls : List String) (acc : Option String),
    ls.foldl
        (fun acc l => match is_tipo_pf l with | some tp => some tp | none => acc)
        acc = none
      ↔ (acc = none ∧ ∀ l ∈ ls, is_tipo_pf l = none) := by
  intro ls
  induction ls with
  | nil => intro acc; simp
  | cons l ls ih =>
    intro acc
    rw [List.foldl_cons]
    cases h : is_tipo_pf l with
    | some tp => simp only [h]; rw [ih]; simp [h, List.forall_mem_cons]
    | none => simp only [h]; rw [ih]; simp [h, List.forall_mem_cons]

theorem lastMarker_eq_none_iff (ls : List String) :
    lastMarker ls = none ↔ ∀ l ∈ ls, is_tipo_pf l = none := by
  have h := lastMarker_aux_none ls none
  simpa [lastMarker] using h

theorem step_records (st : ParseState) (l : String) :
    ∃ new, (step_line st l).records = st.records ++ new
      ∧ ∀ r ∈ new, r.tipo_pf = st.current_tipo_pf := by
  cases h : is_tipo_pf l with
  | some tp =>
    obtain ⟨new, h1, h2⟩ := flush_records_generic st
    exact ⟨new, by simp only [step_line, h]; exact h1, h2⟩
  | none =>
    cases hm : matchHead l.data with
    | some hd =>
      obtain ⟨new, h1, h2⟩ := flush_records_generic st
      exact ⟨new, by simp only [step_line, h, hm]; exact h1, h2⟩
    | none =>
      cases hh : st.current_head with
      | some x =>
        cases ht : reTailB l with
        | true =>
          obtain ⟨new, h1, h2⟩ :=
            flush_records_generic
              { current_tipo_pf := st.current_tipo_pf, records := st.records,
                current_block_lines := st.current_block_lines ++ [l],
                current_head := some x }
          refine ⟨new, ?_, h2⟩
          simp only [step_line, h, hm, hh, ht, if_pos]
          exact h1
        | false => exact ⟨[], by simp [step_line, h, hm, hh, ht], by simp⟩
      | none => exact ⟨[], by simp [step_line, h, hm, hh], by simp⟩

theorem blockInv_init : BlockInv initState :=
  ⟨fun _ => rfl, fun h hh => by simp [initState] at hh⟩

theorem blockInv_flush (st : ParseState) : BlockInv (flush_block st) := by
  refine ⟨fun _ => flush_block_empty st, fun h hh => ?_⟩
  rw [flush_head st] at hh
  exact Option.noConfusion hh

theorem blockInv_ne (st : ParseState) (hInv : BlockInv st) :
    st.current_head.isSome = true → st.current_block_lines ≠ [] := by
  intro hs
  obtain ⟨x, hx⟩ := Option.isSome_iff_exists.mp hs
  obtain ⟨l₀, rest, hbl, -, -⟩ := hInv.2 x hx
  rw [hbl]
  simp

theorem blockInv_step (st : ParseState) (l : String) (hInv : BlockInv st) :
    BlockInv (step_line st l) := by
  cases h : is_tipo_pf l with
  | some tp =>
    refine ⟨fun _ => ?_, fun hd hh => ?_⟩
    · simp [step_line, h, flush_block_empty]
    · simp [step_line, h, flush_head] at hh
  | none =>
    cases hm : matchHead l.data with
    | some hd =>
      refine ⟨fun hc => ?_, fun hd2 hh => ?_⟩
      · simp [step_line, h, hm] at hc
      · simp only [step_line, h, hm] at hh ⊢
        exact ⟨l, [], rfl, by simp [reHeadB, hm], by simp⟩
    | none =>
      cases hh : st.current_head with
      | none =>
        have hstep : step_line st l = st := by simp [step_line, h, hm, hh]
        rw [hstep]
        exact hInv
      | some x =>
        cases ht : reTailB l with
        | true =>
          have hstep : step_line st l
              = flush_block { st with current_block_lines := st.current_block_lines ++ [l] } := by
            simp [step_line, h, hm, hh, ht]
          rw [hstep]
          exact blockInv_flush _
        | false =>
          have hstep : step_line st l
              = { st with current_block_lines := st.current_block_lines ++ [l] } := by
            simp [step_line, h, hm, hh, ht]
          rw [hstep]
          obtain ⟨l₀, rest, hbl, hl₀, hrest⟩ := hInv.2 x hh
          refine ⟨fun hc => ?_, fun hd2 hh2 => ?_⟩
          · exact absurd hc (by simp [hh])
          · refine ⟨l₀, rest ++ [l], ?_, hl₀, ?_⟩
            · show st.current_block_lines ++ [l] = l₀ :: (rest ++ [l])
              rw [hbl]
              rfl
            · intro a ha
              rcases List.mem_append.mp ha with ha | ha
              · exact hrest a ha
              · rw [List.mem_singleton] at ha
                subst ha
                exact ⟨by simp [reHeadB, hm], ht⟩

theorem flush_len (st : ParseState)
    (hne : st.current_head.isSome = true → st.current_block_lines ≠ []) :
    ((flush_block st).records).length
      = st.records.length + (if st.current_head.isSome then 1 else 0) := by
  cases hh : st.current_head with
  | none => simp [flush_records_of_none st hh, hh]
  | some h =>
    have hb := hne (by rw [hh]; rfl)
    simp [flush_records_of_some st h hh hb, hh]

theorem step_phi (st : ParseState) (l : String) (hInv : BlockInv st) :
    (step_line st l).records.length
        + (if (step_line st l).current_head.isSome then 1 else 0)
      = st.records.length + (if st.current_head.isSome then 1 else 0)
        + (if reHeadB l then 1 else 0) := by
  have hne := blockInv_ne st hInv
  cases h : is_tipo_pf l with
  | some tp =>
    have hrl : reHeadB l = false := tipo_of_head_none h
    have hstep : step_line st l = { flush_block st with current_tipo_pf := some tp } := by
      simp [step_line, h]
    rw [hstep, hrl]
    show (flush_block st).records.length
        + (if (flush_block st).current_head.isSome then 1 else 0) = _
    rw [flush_head, flush_len st hne]
    simp
  | none =>
    cases hm : matchHead l.data with
    | some hd =>
      have hrl : reHeadB l = true := by simp [reHeadB, hm]
      have hstep : step_line st l
          = { flush_block st with current_head := some hd, current_block_lines := [l] } := by
        simp [step_line, h, hm]
      rw [hstep, hrl]
      show (flush_block st).records.length + _ = _
      rw [flush_len st hne]
      simp
    | none =>
      have hrl : reHeadB l = false := by simp [reHeadB, hm]
      cases hh : st.current_head with
      | none =>
        have hstep : step_line st l = st := by simp [step_line, h, hm, hh]
        rw [hstep, hrl]
        simp [hh]
      | some x =>
        cases ht : reTailB l with
        | true =>
          have hstep : step_line st l
              = flush_block { st with current_block_lines := st.current_block_lines ++ [l] } := by
            simp [step_line, h, hm, hh, ht]
          rw [hstep, hrl]
          rw [flush_head, flush_len _ (by intro _; simp)]
          simp [hh]
        | false =>
          have hstep : step_line st l
              = { st with current_block_lines := st.current_block_lines ++ [l] } := by
            simp [step_line, h, hm, hh, ht]
          rw [hstep, hrl]
          simp [hh]

theorem run_count : ∀ (ls : List String) (st : ParseState), BlockInv st →
    BlockInv (ls.foldl step_line st)
    ∧ ((flush_block (ls.foldl step_line st)).records).length
        = st.records.length + (if st.current_head.isSome then 1 else 0)
          + (ls.filter reHeadB).length := by
  intro ls
  induction ls with
  | nil =>
    intro st hInv
    refine ⟨hInv, ?_⟩
    simp [flush_len st (blockInv_ne st hInv)]
  | cons l ls ih =>
    intro st hInv
    obtain ⟨ih1, ih2⟩ := ih (step_line st l) (blockInv_step st l hInv)
    refine ⟨by rw [List.foldl_cons]; exact ih1, ?_⟩
    rw [List.foldl_cons, ih2, List.filter_cons]
    have hkey := step_phi st l hInv
    cases hr : reHeadB l with
    | true =>
      rw [hr] at hkey
      simp only [List.length_cons] at hkey ⊢
      simp at hkey ⊢
      omega
    | false =>
      rw [hr] at hkey
      simp at hkey ⊢
      omega

/-- C1: the number of records produced by the parser equals the number of
preprocessed input lines matching the heading pattern: every
heading-matching line opens a block, and every opened block — including a
heading immediately superseded by another heading, a category marker, a
trailing line, or end of input — is flushed into exactly one record. -/
theorem parse_record_count :
    ∀ raw : List String,
      (parse_text_blocks raw).length = ((preprocess raw).filter reHeadB).length := by
  intro raw
  obtain ⟨-, h2⟩ := run_count (preprocess raw) initState blockInv_init
  simpa [parse_text_blocks, initState] using h2

/-- C5: the category of every record is the last marker seen strictly
before the flush that produced it.  Over any scanned prefix `ls`: the
scanner's current category equals `lastMarker ls`; it is `none` exactly
when no marker line occurred; any record emitted while processing the next
line — be it a marker (which flushes before overwriting the category), a
heading, or a trailing line — carries `lastMarker ls`; and so does any
record emitted by the final end-of-input flush. -/
theorem category_assignment :
    ∀ ls : List String,
      ((ls.foldl step_line initState).current_tipo_pf = lastMarker ls)
      ∧ (lastMarker ls = none ↔ ∀ l ∈ ls, is_tipo_pf l = none)
      ∧ (∀ line, ∃ new, (step_line (ls.foldl step_line initState) line).records
            = (ls.foldl step_line initState).records ++ new
            ∧ ∀ r ∈ new, r.tipo_pf = lastMarker ls)
      ∧ (∃ new, (flush_block (ls.foldl step_line initState)).records
            = (ls.foldl step_line initState).records ++ new
            ∧ ∀ r ∈ new, r.tipo_pf = lastMarker ls) := by
  intro ls
  have htipo : (ls.foldl step_line initState).current_tipo_pf = lastMarker ls := by
    rw [run_tipo ls initState]
    rfl
  refine ⟨htipo, lastMarker_eq_none_iff ls, ?_, ?_⟩
  · intro line
    obtain ⟨new, h1, h2⟩ := step_records (ls.foldl step_line initState) line
    exact ⟨new, h1, fun r hr => by rw [h2 r hr, htipo]⟩
  · obtain ⟨new, h1, h2⟩ := flush_records_generic (ls.foldl step_line initState)
    exact ⟨new, h1, fun r hr => by rw [h2 r hr, htipo]⟩

theorem mk_record_body_empty (tipo : Option String) (h : HeadMatch)
    (v : Option Nat × Option ℚ × Option ℚ) :
    (mk_record tipo h v []).descricao = none ∧ (mk_record tipo h v []).prestador = none := by
  simp [mk_record]

theorem mk_record_body_concat (tipo : Option String) (h : HeadMatch)
    (v : Option Nat × Option ℚ × Option ℚ) (pre : List String) (lst : String) :
    (mk_record tipo h v (pre ++ [lst])).prestador = some (clean_spaces lst)
    ∧ (pre = [] → (mk_record tipo h v (pre ++ [lst])).descricao = none)
    ∧ (pre ≠ [] → (mk_record tipo h v (pre ++ [lst])).descricao
        = some (clean_spaces (String.intercalate (" ") pre))) := by
  refine ⟨?_, ?_, ?_⟩
  · simp [mk_record, List.getLast?_concat]
  · intro hpre
    subst hpre
    simp [mk_record]
  · intro hpre
    simp [mk_record, List.dropLast_concat, hpre]

/-- C4: every flushed block splits its body lines as home.py lines 106-113
do: with a non-empty body the provider is the last body line and the
description is the earlier body lines joined by single spaces (each
whitespace-collapsed, as the spec's parenthetical notes), the description
being absent when there is exactly one body line; with an empty body both
fields are absent. -/
theorem flush_body_split (st : ParseState) (h : HeadMatch)
    (hh : st.current_head = some h) (hb : st.current_block_lines ≠ []) :
    ∃ r, (flush_block st).records = st.records ++ [r]
      ∧ (body_lines_of st.current_block_lines = [] →
          r.descricao = none ∧ r.prestador = none)
      ∧ (∀ pre lst, body_lines_of st.current_block_lines = pre ++ [lst] →
          r.prestador = some (clean_spaces lst)
          ∧ (pre = [] → r.descricao = none)
          ∧ (pre ≠ [] → r.descricao
              = some (clean_spaces (String.intercalate (" ") pre)))) := by
  refine ⟨_, flush_records_of_some st h hh hb, ?_, ?_⟩
  · intro hbody
    rw [hbody]
    exact mk_record_body_empty st.current_tipo_pf h _
  · intro pre lst hbody
    rw [hbody]
    exact mk_record_body_concat st.current_tipo_pf h _ pre lst

/-- Witness for C4 at a concrete block: a heading followed by two
description lines and a provider line. -/
theorem flush_body_split_witness :
    ((flush_block ⟨none, [],
        ["123456 7 01/02/2023 1.23.45.67-8", "Desc A", "Desc B", "Prest X"],
        some ⟨"123456", "7", "01/02/2023", "1.23.45.67-8"⟩⟩).records.map
          Record.prestador = [some ("Prest X")])
    ∧ ((flush_block ⟨none, [],
        ["123456 7 01/02/2023 1.23.45.67-8", "Desc A", "Desc B", "Prest X"],
        some ⟨"123456", "7", "01/02/2023", "1.23.45.67-8"⟩⟩).records.map
          Record.descricao = [some ("Desc A Desc B")]) := by
  obtain ⟨r, hr, -, hsplit⟩ :=
    flush_body_split
      ⟨none, [],
        ["123456 7 01/02/2023 1.23.45.67-8", "Desc A", "Desc B", "Prest X"],
        some ⟨"123456", "7", "01/02/2023", "1.23.45.67-8"⟩⟩
      ⟨"123456", "7", "01/02/2023", "1.23.45.67-8"⟩ rfl (by decide)
  obtain ⟨hp, -, hd⟩ := hsplit ["Desc A", "Desc B"] ("Prest X") (by decide)
  have hd2 := hd (by decide)
  constructor
  · rw [hr]
    simp only [List.map_append, List.map_cons, List.map_nil, hp]
    decide
  · rw [hr]
    simp only [List.map_append, List.map_cons, List.map_nil, hd2]
    decide

theorem tail_line_of_head_only (l₀ : String) (rest : List String)
    (h0 : reTailB l₀ = true) (hr : ∀ l ∈ rest, reTailB l = false) :
    tail_line_of (l₀ :: rest) = some l₀ := by
  unfold tail_line_of
  rw [List.reverse_cons, List.find?_append]
  have h1 : rest.reverse.find? reTailB = none := by
    apply List.find?_eq_none.mpr
    intro a ha
    rw [List.mem_reverse] at ha
    simp [hr a ha]
  rw [h1]
  simp [List.find?, h0]

theorem body_lines_of_head_only (l₀ : String) (rest : List String)
    (h0 : reTailB l₀ = true) (hr : ∀ l ∈ rest, reTailB l = false)
    (hrh : ∀ l ∈ rest, reHeadB l = false) :
    body_lines_of (l₀ :: rest) = rest := by
  unfold body_lines_of
  rw [tail_line_of_head_only l₀ rest h0 hr, List.filter_cons]
  simp only [beq_self_eq_true, Bool.not_true, Bool.false_and, if_false]
  apply List.filter_eq_self.mpr
  intro a ha
  have h1 : reTailB a = false := hr a ha
  have h2 : reHeadB a = false := hrh a ha
  have h3 : ¬(l₀ = a) := by
    intro he
    rw [← he, h0] at h1
    exact Bool.noConfusion h1
  simp [h2, h3]

/-- C10: a heading line that itself also matches the trailing-presence
pattern does not trigger an immediate trailing-flush when fed (the
immediate-flush check of the scanning loop applies only to non-heading,
non-marker lines — feeding any heading line just flushes the previous
block and opens a new one); at flush time, if no other accumulated line
matches the trailing pattern, the backward scan selects the heading line
itself as the trailing line, so quantity and the two amounts are extracted
from the heading line and the heading line is excluded from the body.
The hypotheses on `rest` are the scanner's block invariant: accumulated
non-heading lines never match `RE_HEAD`. -/
theorem heading_line_as_trailing :
    (∀ (st : ParseState) (line : String) (h : HeadMatch),
        matchHead line.data = some h →
        step_line st line
          = { flush_block st with current_head := some h, current_block_lines := [line] })
    ∧ (∀ (st : ParseState) (h : HeadMatch) (l₀ : String) (rest : List String),
        st.current_head = some h →
        st.current_block_lines = l₀ :: rest →
        reTailB l₀ = true →
        (∀ l ∈ rest, reTailB l = false) →
        (∀ l ∈ rest, reHeadB l = false) →
        tail_line_of (l₀ :: rest) = some l₀
        ∧ body_lines_of (l₀ :: rest) = rest
        ∧ (flush_block st).records
            = st.records
              ++ [mk_record st.current_tipo_pf h (tail_vals (some l₀)) rest]) := by
  constructor
  · intro st line h hm
    have htipo : is_tipo_pf line = none := head_not_tipo (by simp [reHeadB, hm])
    simp [step_line, htipo, hm]
  · intro st h l₀ rest hh hbl h0 hr hrh
    have ht := tail_line_of_head_only l₀ rest h0 hr
    have hb := body_lines_of_head_only l₀ rest h0 hr hrh
    refine ⟨ht, hb, ?_⟩
    rw [flush_records_of_some st h hh (by rw [hbl]; simp)]
    rw [hbl, ht, hb]

unseal Rat.add Rat.mul Rat.sub Rat.inv in
/-- Witness for C10 at a concrete heading line that ends with a trailing
pattern: fed from the idle state it opens a block without flushing, and
flushing the one-line block extracts quantity 2 from the heading line. -/
theorem heading_line_as_trailing_witness :
    step_line initState ("123456 7 01/02/2023 1.23.45.67-8 2 R$ 100,00 R$ 30,00")
        = ⟨none, [], ["123456 7 01/02/2023 1.23.45.67-8 2 R$ 100,00 R$ 30,00"],
            some ⟨"123456", "7", "01/02/2023", "1.23.45.67-8"⟩⟩
    ∧ tail_line_of ["123456 7 01/02/2023 1.23.45.67-8 2 R$ 100,00 R$ 30,00"]
        = some ("123456 7 01/02/2023 1.23.45.67-8 2 R$ 100,00 R$ 30,00")
    ∧ (flush_block ⟨none, [],
          ["123456 7 01/02/2023 1.23.45.67-8 2 R$ 100,00 R$ 30,00"],
          some ⟨"123456", "7", "01/02/2023", "1.23.45.67-8"⟩⟩).records.map
        (fun r => (r.qtd, r.valor_pago, r.coparticipacao))
        = [(some 2, some 100, some 30)] := by
  obtain ⟨ha, hb⟩ := heading_line_as_trailing
  have h1 := ha initState ("123456 7 01/02/2023 1.23.45.67-8 2 R$ 100,00 R$ 30,00")
    ⟨"123456", "7", "01/02/2023", "1.23.45.67-8"⟩ (by decide)
  have h2 := hb
    ⟨none, [], ["123456 7 01/02/2023 1.23.45.67-8 2 R$ 100,00 R$ 30,00"],
      some ⟨"123456", "7", "01/02/2023", "1.23.45.67-8"⟩⟩
    ⟨"123456", "7", "01/02/2023", "1.23.45.67-8"⟩
    ("123456 7 01/02/2023 1.23.45.67-8 2 R$ 100,00 R$ 30,00") []
    rfl rfl (by decide) (by decide) (by decide)
  refine ⟨?_, h2.1, ?_⟩
  · rw [h1]
    decide
  · rw [h2.2.2]
    decide

theorem body_code_eq_spec (l₀ : String) (rest : List String)
    (hhead : reHeadB l₀ = true)
    (hrh : ∀ l ∈ rest, reHeadB l = false)
    (hrt : ∀ l ∈ rest.dropLast, reTailB l = false) :
    body_lines_of (l₀ :: rest) = bodySpec (l₀ :: rest) := by
  rcases List.eq_nil_or_concat rest with hre | ⟨mid, tl, hre⟩
  · subst hre
    cases h0 : reTailB l₀ with
    | true =>
      have hb := body_lines_of_head_only l₀ [] h0 (by simp) (by simp)
      rw [hb]
      simp [bodySpec, h0]
    | false =>
      have ht : tail_line_of [l₀] = none := by
        unfold tail_line_of
        apply List.find?_eq_none.mpr
        intro a ha
        rw [List.mem_reverse, List.mem_singleton] at ha
        subst ha
        simp [h0]
      unfold body_lines_of
      rw [ht]
      simp [List.filter_cons, hhead, bodySpec, h0]
  · subst hre
    rw [List.concat_eq_append] at hrh hrt ⊢
    have hmid : ∀ l ∈ mid, reTailB l = false := by
      intro a ha
      apply hrt
      rw [List.dropLast_concat]
      exact ha
    cases htl : reTailB tl with
    | false =>
      have hrt' : ∀ l ∈ mid ++ [tl], reTailB l = false := by
        intro a ha
        rcases List.mem_append.mp ha with h | h
        · exact hmid a h
        · rw [List.mem_singleton] at h
          subst h
          exact htl
      cases h0 : reTailB l₀ with
      | true =>
        have hb := body_lines_of_head_only l₀ (mid ++ [tl]) h0 hrt' hrh
        rw [hb]
        have hall : ((mid ++ [tl]).all (fun l => !(reTailB l))) = true := by
          rw [List.all_eq_true]
          intro a ha
          simp [hrt' a ha]
        simp [bodySpec, h0, hall]
      | false =>
        have ht : tail_line_of (l₀ :: (mid ++ [tl])) = none := by
          unfold tail_line_of
          apply List.find?_eq_none.mpr
          intro a ha
          rw [List.mem_reverse] at ha
          rcases List.mem_cons.mp ha with h | h
          · subst h
            simp [h0]
          · simp [hrt' a h]
        unfold body_lines_of
        rw [ht, List.filter_cons]
        have hc0 : (!((none : Option String) == some l₀) && !(reHeadB l₀)) = false := by
          simp [hhead]
        simp only [hc0, if_false]
        have hkeep : List.filter
            (fun l => !((none : Option String) == some l) && !(reHeadB l))
            (mid ++ [tl]) = mid ++ [tl] := by
          apply List.filter_eq_self.mpr
          intro a ha
          simp [hrh a ha]
        rw [hkeep]
        have herase : ((tl :: mid.reverse).eraseP reTailB) = tl :: mid.reverse := by
          apply List.eraseP_of_forall_not
          intro a ha
          rcases List.mem_cons.mp ha with hx | hx
          · subst hx
            simp [htl]
          · rw [List.mem_reverse] at hx
            simp [hmid a hx]
        simp [bodySpec, h0, List.reverse_append, herase]
    | true =>
      have ht : tail_line_of (l₀ :: (mid ++ [tl])) = some tl := by
        unfold tail_line_of
        rw [List.reverse_cons, List.reverse_append, List.find?_append]
        have h1 : List.find? reTailB ([tl].reverse ++ mid.reverse) = some tl := by
          rw [List.find?_append]
          simp [List.find?, htl]
        rw [h1]
        rfl
      unfold body_lines_of
      rw [ht, List.filter_cons]
      have hc0 : (!((some tl : Option String) == some l₀) && !(reHeadB l₀)) = false := by
        simp [hhead]
      simp only [hc0, if_false]
      rw [List.filter_append]
      have hmid_keep : List.filter
          (fun l => !((some tl : Option String) == some l) && !(reHeadB l)) mid = mid := by
        apply List.filter_eq_self.mpr
        intro a ha
        have h1 : reTailB a = false := hmid a ha
        have h2 : reHeadB a = false := hrh a (List.mem_append.mpr (Or.inl ha))
        have h3 : ¬(tl = a) := by
          intro he
          rw [← he, htl] at h1
          exact Bool.noConfusion h1
        simp [h2, h3]
      have htl_drop : List.filter
          (fun l => !((some tl : Option String) == some l) && !(reHeadB l)) [tl] = [] := by
        simp
      rw [hmid_keep, htl_drop, List.append_nil]
      have hall : ((mid ++ [tl]).all (fun l => !(reTailB l))) = false := by
        simp [List.all_append, htl]
      have hspec : bodySpec (l₀ :: (mid ++ [tl]))
          = ((mid ++ [tl]).reverse.eraseP reTailB).reverse := by
        simp [bodySpec, hall]
      rw [hspec]
      have herase : (mid ++ [tl]).reverse.eraseP reTailB = mid.reverse := by
        rw [List.reverse_append]
        have : ([tl].reverse ++ mid.reverse) = tl :: mid.reverse := by simp
        rw [this, List.eraseP_cons_of_pos htl]
      rw [herase, List.reverse_reverse]
      simp

theorem blockInv_flushable (st : ParseState) (hInv : BlockInv st) :
    st.current_head = none ∨
      ∃ l₀ rest, st.current_block_lines = l₀ :: rest ∧ reHeadB l₀ = true ∧
        (∀ l ∈ rest, reHeadB l = false) ∧ (∀ l ∈ rest.dropLast, reTailB l = false) := by
  cases hh : st.current_head with
  | none => exact Or.inl rfl
  | some x =>
    obtain ⟨l₀, rest, hbl, h1, h2⟩ := hInv.2 x hh
    exact Or.inr ⟨l₀, rest, hbl, h1, fun a ha => (h2 a ha).1,
      fun a ha => (h2 a (List.dropLast_subset rest ha)).2⟩

theorem flush_code_eq_spec_aux (st : ParseState)
    (hP : st.current_head = none ∨
      ∃ l₀ rest, st.current_block_lines = l₀ :: rest ∧ reHeadB l₀ = true ∧
        (∀ l ∈ rest, reHeadB l = false) ∧ (∀ l ∈ rest.dropLast, reTailB l = false)) :
    flush_block st = flush_block_spec st := by
  rcases hP with hh | ⟨l₀, rest, hbl, h1, h2, h3⟩
  · simp [flush_block, flush_block_spec, hh]
  · cases hh : st.current_head with
    | none => simp [flush_block, flush_block_spec, hh]
    | some h =>
      have hb : st.current_block_lines ≠ [] := by rw [hbl]; simp
      simp only [flush_block, flush_block_spec, hh, if_neg hb]
      rw [hbl, body_code_eq_spec l₀ rest h1 h2 h3]

theorem step_code_eq_spec (st : ParseState) (l : String) (hInv : BlockInv st) :
    step_line st l = step_line_spec st l := by
  have hflush := flush_code_eq_spec_aux st (blockInv_flushable st hInv)
  cases h : is_tipo_pf l with
  | some tp => simp [step_line, step_line_spec, h, hflush]
  | none =>
    cases hm : matchHead l.data with
    | some hd => simp [step_line, step_line_spec, h, hm, hflush]
    | none =>
      cases hh : st.current_head with
      | none => simp [step_line, step_line_spec, h, hm, hh]
      | some x =>
        cases ht : reTailB l with
        | false => simp [step_line, step_line_spec, h, hm, hh, ht]
        | true =>
          obtain ⟨l₀, rest, hbl, h1, h2⟩ := hInv.2 x hh
          have hP2 : (⟨st.current_tipo_pf, st.records, st.current_block_lines ++ [l], some x⟩ : ParseState).current_head = none ∨
              ∃ l₀ rest2,
                (⟨st.current_tipo_pf, st.records, st.current_block_lines ++ [l], some x⟩ : ParseState).current_block_lines
                  = l₀ :: rest2 ∧ reHeadB l₀ = true ∧
                (∀ a ∈ rest2, reHeadB a = false) ∧
                (∀ a ∈ rest2.dropLast, reTailB a = false) := by
            refine Or.inr ⟨l₀, rest ++ [l], ?_, h1, ?_, ?_⟩
            · show st.current_block_lines ++ [l] = l₀ :: (rest ++ [l])
              rw [hbl]
              rfl
            · intro a ha
              rcases List.mem_append.mp ha with hx | hx
              · exact (h2 a hx).1
              · rw [List.mem_singleton] at hx
                subst hx
                simp [reHeadB, hm]
            · intro a ha
              rw [List.dropLast_concat] at ha
              exact (h2 a ha).2
          have hflush2 := flush_code_eq_spec_aux
            ⟨st.current_tipo_pf, st.records, st.current_block_lines ++ [l], some x⟩ hP2
          simp [step_line, step_line_spec, h, hm, hh, ht, hflush2]

theorem run_code_eq_spec : ∀ (ls : List String) (st : ParseState), BlockInv st →
    ls.foldl step_line st = ls.foldl step_line_spec st := by
  intro ls
  induction ls with
  | nil => intro st _; rfl
  | cons l ls ih =>
    intro st hInv
    rw [List.foldl_cons, List.foldl_cons, ← step_code_eq_spec st l hInv]
    exact ih (step_line st l) (blockInv_step st l hInv)

/-- C6: for every input, the parser built on the code's body filter —
which skips every accumulated line equal to the trailing line — produces
exactly the records of the parser built on the specification's body rule,
which removes the heading line and exactly one occurrence of the
identified trailing line.  Within reachable blocks the two coincide: a
body line textually identical to the trailing line cannot occur, because
any non-heading line matching the trailing pattern flushes the block at
once and a line equal to the heading line would have opened a new block. -/
theorem parse_single_tail_removal :
    ∀ raw : List String, parse_text_blocks raw = parse_text_blocks_spec raw := by
  intro raw
  unfold parse_text_blocks parse_text_blocks_spec
  rw [← run_code_eq_spec (preprocess raw) initState blockInv_init]
  have hInv : BlockInv ((preprocess raw).foldl step_line initState) :=
    (run_count (preprocess raw) initState blockInv_init).1
  rw [flush_code_eq_spec_aux _ (blockInv_flushable _ hInv)]

/-- C7 counterexample: a flushed block whose trailing line
`1 R$ , R$ ,` matches the trailing-presence pattern while value
extraction fails to produce the amounts — yet the emitted record has
quantity `some 1`, not absent, refuting the claim that quantity, paid
amount and co-participation are then all absent. -/
theorem tail_value_failure_quantity_present :
    reTailB ("1 R$ , R$ ,") = true
    ∧ (parse_text_blocks ["123456 7 01/02/2023 1.23.45.67-8", "1 R$ , R$ ,"]).map
        (fun r => (r.qtd, r.valor_pago, r.coparticipacao))
      = [(some 1, none, none)] :=
  ⟨by decide, by decide⟩

/-- C7 (amended): the stricter value-extraction grammar `RE_VALS` accepts
exactly the lines the trailing-presence pattern `RE_TAIL` accepts, so the
guarded fallback for a failing stricter match is dead code; numeric fields
can still be individually absent — when money normalization of a captured
group fails the amount is absent while the quantity is populated — and a
record is always emitted with peg, guide, date and code taken from the
heading match whenever a block with a heading flushes. -/
theorem stricter_grammar_never_fails :
    (∀ l : String, reTailB l = true → (searchVals l.data).isSome = true)
    ∧ tail_vals (some ("1 R$ , R$ ,")) = (some 1, none, none)
    ∧ (∀ (st : ParseState) (h : HeadMatch),
        st.current_head = some h → st.current_block_lines ≠ [] →
        ∃ r, (flush_block st).records = st.records ++ [r]
          ∧ r.peg = h.peg ∧ r.guia = h.guia ∧ r.data = h.data ∧ r.codigo = h.codigo) := by
  refine ⟨?_, by decide, ?_⟩
  · intro l hl
    rw [reTailB, searchTail_eq_isSome] at hl
    exact hl
  · intro st h hh hb
    exact ⟨_, flush_records_of_some st h hh hb, rfl, rfl, rfl, rfl⟩

/-- Witness for the amended C7 at the concrete failing trailing line. -/
theorem stricter_grammar_never_fails_witness :
    (searchVals ("1 R$ , R$ ,").data).isSome = true
    ∧ (flush_block ⟨none, [],
        ["123456 7 01/02/2023 1.23.45.67-8", "1 R$ , R$ ,"],
        some ⟨"123456", "7", "01/02/2023", "1.23.45.67-8"⟩⟩).records.map
          Record.peg = ["123456"] := by
  obtain ⟨h1, -, h3⟩ := stricter_grammar_never_fails
  refine ⟨h1 ("1 R$ , R$ ,") (by decide), ?_⟩
  obtain ⟨r, hr, hp, -, -, -⟩ := h3
    ⟨none, [], ["123456 7 01/02/2023 1.23.45.67-8", "1 R$ , R$ ,"],
      some ⟨"123456", "7", "01/02/2023", "1.23.45.67-8"⟩⟩
    ⟨"123456", "7", "01/02/2023", "1.23.45.67-8"⟩ rfl (by decide)
  rw [hr]
  simp only [List.map_append, List.map_cons, List.map_nil, hp]
  decide

/-- Witness for C5 at a concrete prefix: after a marker line and a heading
line the scanner's category is the marker. -/
theorem category_assignment_witness :
    (["CONSULTA", "123456 7 01/02/2023 1.23.45.67-8"].foldl step_line
        initState).current_tipo_pf
      = lastMarker ["CONSULTA", "123456 7 01/02/2023 1.23.45.67-8"]
    ∧ lastMarker ["CONSULTA", "123456 7 01/02/2023 1.23.45.67-8"]
      = some ("CONSULTA") := by
  refine ⟨(category_assignment _).1, by decide⟩
